import Mathlib

/-!
# Verification of the agiraph orchestration core

A shallow embedding, in Lean 4, of the orchestration machinery of the
agiraph repository (`src/agiraph/`): the work-item data model and
dependency resolution (`models.py`), the message bus (`message_bus.py`),
the tool registry (`tools/registry.py`), the scheduler (`scheduler.py`),
the worker executor (`worker.py`), the `publish` tool implementation
(`tools/implementations.py`), and the coordinator's failure-backoff and
tool-call-processing logic (`coordinator.py`).

Python dicts are embedded as association lists (insertion order,
unique keys where the source guarantees them), mutable objects as
explicit record updates, `asyncio` suspension points and file writes as
explicit trace entries or record fields, and exceptions as `Except`.
File-system reads performed while building prompts, and the actual
copying of `scratch/` into `published/`, are not claimed by any property
and are represented only by the strings / flags the claims mention.
-/

namespace Agiraph

/-- Embeds `WorkNode` from `src/agiraph/models.py` (the fields the
orchestration logic reads: `refs`, `children`, `created_at` are carried
nowhere in the verified paths and are omitted). `data_dir` is a
`Option String` path handle. -/
structure WorkNode where
  id : String
  task : String := ""
  dependencies : List String := []
  status : String := "pending"
  assigned_worker : Option String := none
  data_dir : Option String := none
  result : Option String := none
deriving DecidableEq, Repr

/-- Embeds `Worker` from `src/agiraph/models.py` (fields read by the
verified paths). -/
structure Worker where
  id : String
  name : String := ""
  status : String := "idle"
  worker_dir : Option String := none
  max_iterations : Nat := 20
deriving DecidableEq, Repr

/-- Embeds `WorkBoard` from `src/agiraph/models.py`.  The Python field
is a dict keyed by node id; we keep the dict's values in insertion
order.  `add` overwrites by key, so ids are unique in any board built
through the API; lookups below use the first match, which agrees with
the dict lookup under that uniqueness. -/
structure WorkBoard where
  nodes : List WorkNode := []
deriving Repr

/-- Embeds `WorkBoard.get` / the Python `self.nodes.get(id)`. -/
def WorkBoard.get (b : WorkBoard) (node_id : String) : Option WorkNode :=
  b.nodes.find? (fun n => n.id == node_id)

/-- Embeds the `deps_met` expression inside `WorkBoard.ready_nodes`:
`all(self.nodes.get(d) and self.nodes[d].status == "completed" for d in n.dependencies)`. -/
def depsMet (b : WorkBoard) (n : WorkNode) : Bool :=
  n.dependencies.all fun d =>
    match b.get d with
    | some m => m.status == "completed"
    | none => false

/-- Embeds `WorkBoard.ready_nodes` from `src/agiraph/models.py`
(lines 118–129): pending nodes whose every dependency resolves to a
completed node, in board order. -/
def WorkBoard.ready_nodes (b : WorkBoard) : List WorkNode :=
  b.nodes.filter fun n => n.status == "pending" && depsMet b n

/-- Embeds `WorkerPool` from `src/agiraph/models.py` (values of the
id-keyed dict, insertion order). -/
structure WorkerPool where
  workers : List Worker := []
deriving Repr

/-- Embeds `WorkerPool.get`. -/
def WorkerPool.get (p : WorkerPool) (worker_id : String) : Option Worker :=
  p.workers.find? (fun w => w.id == worker_id)

/-- Embeds `WorkerPool.idle_workers`. -/
def WorkerPool.idle_workers (p : WorkerPool) : List Worker :=
  p.workers.filter (fun w => w.status == "idle")

end Agiraph

namespace Agiraph

/-- C1 helper: the predicate "every dependency id of `n` resolves on
board `b` to a node with status `completed`", as a `Prop`. -/
def AllDepsCompleted (b : WorkBoard) (n : WorkNode) : Prop :=
  ∀ d ∈ n.dependencies, ∃ m, b.get d = some m ∧ m.status = "completed"

theorem depsMet_iff (b : WorkBoard) (n : WorkNode) :
    depsMet b n = true ↔ AllDepsCompleted b n := by
  unfold depsMet AllDepsCompleted
  rw [List.all_eq_true]
  constructor
  · intro h d hd
    have := h d hd
    cases hg : b.get d with
    | none => rw [hg] at this; simp at this
    | some m =>
      rw [hg] at this
      exact ⟨m, rfl, by simpa using this⟩
  · intro h d hd
    obtain ⟨m, hm, hs⟩ := h d hd
    rw [hm]
    simpa using hs

theorem mem_ready_nodes_iff (b : WorkBoard) (n : WorkNode) :
    n ∈ b.ready_nodes ↔ n ∈ b.nodes ∧ n.status = "pending" ∧ AllDepsCompleted b n := by
  unfold WorkBoard.ready_nodes
  rw [List.mem_filter]
  constructor
  · rintro ⟨hmem, hp⟩
    rw [Bool.and_eq_true] at hp
    exact ⟨hmem, by simpa using hp.1, (depsMet_iff b n).mp hp.2⟩
  · rintro ⟨hmem, hs, hd⟩
    refine ⟨hmem, ?_⟩
    rw [Bool.and_eq_true]
    exact ⟨by simpa using hs, (depsMet_iff b n).mpr hd⟩

/-- C1: `ready_nodes()` returns exactly the pending nodes whose every
dependency id resolves to a node with status `"completed"`; in
particular, for nodes A and B on the board with B pending and
B's dependencies exactly `[A.id]`, B is not ready while A's status is
not `"completed"`, and B is ready as soon as A's status is
`"completed"`. -/
theorem C1_ready_nodes_exactly_pending_with_completed_deps (b : WorkBoard) :
    (∀ n, n ∈ b.ready_nodes ↔
      n ∈ b.nodes ∧ n.status = "pending" ∧ AllDepsCompleted b n) ∧
    (∀ A B : WorkNode, b.get A.id = some A → A.status ≠ "completed" →
      B ∈ b.nodes → B.status = "pending" → B.dependencies = [A.id] →
      B ∉ b.ready_nodes) ∧
    (∀ A B : WorkNode, b.get A.id = some A → A.status = "completed" →
      B ∈ b.nodes → B.status = "pending" → B.dependencies = [A.id] →
      B ∈ b.ready_nodes) := by
  refine ⟨mem_ready_nodes_iff b, ?_, ?_⟩
  · intro A B hgetA hA _hBmem _hBpend hBdeps hready
    obtain ⟨_, _, hdeps⟩ := (mem_ready_nodes_iff b B).mp hready
    obtain ⟨m, hm, hms⟩ := hdeps A.id (by rw [hBdeps]; exact List.mem_singleton_self _)
    rw [hgetA] at hm
    exact hA (by rw [Option.some_inj.mp hm]; exact hms)
  · intro A B hgetA hA hBmem hBpend hBdeps
    refine (mem_ready_nodes_iff b B).mpr ⟨hBmem, hBpend, ?_⟩
    intro d hd
    rw [hBdeps, List.mem_singleton] at hd
    exact ⟨A, by rw [hd]; exact hgetA, hA⟩

/-- Concrete board for the C1 witness: node `a` with no dependencies,
node `b` depending on `a`; first with `a` pending, then completed. -/
def c1NodeA : WorkNode := { id := "a" }

def c1NodeADone : WorkNode := { id := "a", status := "completed" }

def c1NodeB : WorkNode := { id := "b", dependencies := ["a"] }

def c1Board : WorkBoard := { nodes := [c1NodeA, c1NodeB] }

def c1BoardDone : WorkBoard := { nodes := [c1NodeADone, c1NodeB] }

theorem C1_witness :
    c1NodeB ∉ c1Board.ready_nodes ∧ c1NodeB ∈ c1BoardDone.ready_nodes := by
  constructor
  · exact (C1_ready_nodes_exactly_pending_with_completed_deps c1Board).2.1
      c1NodeA c1NodeB (by decide) (by decide) (by decide) (by decide) (by decide)
  · exact (C1_ready_nodes_exactly_pending_with_completed_deps c1BoardDone).2.2
      c1NodeADone c1NodeB (by decide) (by decide) (by decide) (by decide) (by decide)

end Agiraph

namespace Agiraph

/-- Embeds `Message` from `src/agiraph/models.py` (the wall-clock
timestamp `ts` is not modelled; no claim reads it). -/
structure Message where
  from_id : String
  to_id : String
  content : String
deriving DecidableEq, Repr

/-- Embeds `MessageBus._queues` from `src/agiraph/message_bus.py`: a
`defaultdict(list)` keyed by entity id.  Keys are unique and kept in
insertion order.  The mutex, the append-only log file and the live
subscriber queues are not modelled: the lock only serialises the
operations we state sequentially, and no claim reads the log or the
subscribers. -/
structure MessageBus where
  queues : List (String × List Message) := []
deriving Repr

/-- Dict lookup `self._queues.get(entity_id)` (no default insertion). -/
def MessageBus.lookup (bus : MessageBus) (entity_id : String) : Option (List Message) :=
  (bus.queues.find? (fun p => p.1 == entity_id)).map (·.2)

/-- The `defaultdict` access-and-append `self._queues[to_id].append(msg)`:
appends to the existing queue, creating an empty queue at the end of the
dict's insertion order when the key is absent. -/
def appendToQueue : List (String × List Message) → String → Message →
    List (String × List Message)
  | [], e, m => [(e, [m])]
  | (k, q) :: rest, e, m =>
    if k == e then (k, q ++ [m]) :: rest
    else (k, q) :: appendToQueue rest e m

/-- Embeds `MessageBus.send` (message construction plus the mailbox
append; `_log` and `_notify` touch only the unmodelled side channels). -/
def MessageBus.send (bus : MessageBus) (from_id to_id content : String) :
    Message × MessageBus :=
  let msg : Message := ⟨from_id, to_id, content⟩
  (msg, ⟨appendToQueue bus.queues to_id msg⟩)

/-- Embeds `MessageBus.receive`: `self._queues.pop(entity_id, [])` —
returns the queued messages and removes the entity's entry. -/
def MessageBus.receive (bus : MessageBus) (entity_id : String) :
    List Message × MessageBus :=
  ((bus.lookup entity_id).getD [],
   ⟨bus.queues.filter (fun p => !(p.1 == entity_id))⟩)

/-- Embeds `MessageBus.peek`: `list(self._queues.get(entity_id, []))` —
a copy of the queue; the dict is not assigned to. -/
def MessageBus.peek (bus : MessageBus) (entity_id : String) : List Message :=
  (bus.lookup entity_id).getD []

/-- Embeds `MessageBus.register`: create an empty mailbox if absent. -/
def MessageBus.register (bus : MessageBus) (entity_id : String) : MessageBus :=
  if (bus.queues.find? (fun p => p.1 == entity_id)).isSome then bus
  else ⟨bus.queues ++ [(entity_id, [])]⟩

/-- The recipient list computed inside `MessageBus.broadcast`:
`[k for k in self._queues.keys() if k not in exclude and k != from_id]`. -/
def broadcastRecipients (bus : MessageBus) (from_id : String)
    (exclude : List String) : List String :=
  (bus.queues.map (·.1)).filter (fun k => !(exclude.contains k) && !(k == from_id))

/-- Embeds `MessageBus.broadcast`: `send` to every registered entity
except the sender and the exclusion set. -/
def MessageBus.broadcast (bus : MessageBus) (from_id content : String)
    (exclude : List String) : MessageBus :=
  (broadcastRecipients bus from_id exclude).foldl
    (fun b r => (b.send from_id r content).2) bus

theorem lookup_appendToQueue_self (qs : List (String × List Message))
    (e : String) (m : Message) :
    (MessageBus.mk (appendToQueue qs e m)).lookup e =
      some (((MessageBus.mk qs).lookup e).getD [] ++ [m]) := by
  induction qs with
  | nil => simp [appendToQueue, MessageBus.lookup]
  | cons p rest ih =>
    obtain ⟨k, q⟩ := p
    by_cases hk : k == e
    · simp [appendToQueue, hk, MessageBus.lookup, List.find?]
    · simp only [appendToQueue, hk, Bool.false_eq_true, if_false]
      simpa [MessageBus.lookup, List.find?, hk] using ih

theorem lookup_appendToQueue_ne (qs : List (String × List Message))
    (e r : String) (m : Message) (h : r ≠ e) :
    (MessageBus.mk (appendToQueue qs r m)).lookup e =
      (MessageBus.mk qs).lookup e := by
  induction qs with
  | nil =>
    have hre : (r == e) = false := by simp [h]
    simp [appendToQueue, MessageBus.lookup, List.find?, hre]
  | cons p rest ih =>
    obtain ⟨k, q⟩ := p
    by_cases hk : k == r
    · have hke : (k == e) = false := by
        have : k = r := by simpa using hk
        simp [this, h]
      simp [appendToQueue, hk, MessageBus.lookup, List.find?, hke]
    · simp only [appendToQueue, hk, Bool.false_eq_true, if_false]
      by_cases hke : k == e
      · simp [MessageBus.lookup, List.find?, hke]
      · simpa [MessageBus.lookup, List.find?, hke] using ih

theorem lookup_receive_self (bus : MessageBus) (e : String) :
    ((bus.receive e).2).lookup e = none := by
  unfold MessageBus.receive MessageBus.lookup
  rw [Option.map_eq_none', List.find?_eq_none]
  intro p hp
  rw [List.mem_filter] at hp
  simpa using hp.2

/-- C8: `receive(e)` drains the mailbox and returns the queued messages
in FIFO (send-arrival) order, a second immediate `receive(e)` returns
the empty list, and `peek(e)` reads the same messages a `receive` would
drain, without changing the mailbox (it agrees with the following
`receive` on the very same bus state); a send appends at the tail of
what `peek` sees. -/
theorem C8_receive_destructive_peek_pure (bus : MessageBus) (e : String) :
    ((bus.receive e).2.receive e).1 = [] ∧
    bus.peek e = (bus.receive e).1 ∧
    (∀ f c, ((bus.send f e c).2.receive e).1 = bus.peek e ++ [⟨f, e, c⟩]) ∧
    (∀ f c, (bus.send f e c).2.peek e = bus.peek e ++ [⟨f, e, c⟩]) := by
  refine ⟨?_, rfl, ?_, ?_⟩
  · show ((((bus.receive e).2).lookup e).getD []) = []
    rw [lookup_receive_self]
    rfl
  · intro f c
    show ((((bus.send f e c).2).lookup e).getD []) = _
    rw [show (bus.send f e c).2 = ⟨appendToQueue bus.queues e ⟨f, e, c⟩⟩ from rfl]
    rw [lookup_appendToQueue_self]
    rfl
  · intro f c
    show ((((bus.send f e c).2).lookup e).getD []) = _
    rw [show (bus.send f e c).2 = ⟨appendToQueue bus.queues e ⟨f, e, c⟩⟩ from rfl]
    rw [lookup_appendToQueue_self]
    rfl

theorem broadcast_fold_preserves_absent (f content e : String) :
    ∀ (rs : List String) (b : MessageBus), (∀ r ∈ rs, r ≠ e) →
      b.lookup e = none →
      (rs.foldl (fun b r => (b.send f r content).2) b).lookup e = none
  | [], b, _, hb => hb
  | r :: rs, b, hrs, hb => by
    rw [List.foldl_cons]
    refine broadcast_fold_preserves_absent f content e rs _ (fun x hx => hrs x (List.mem_cons_of_mem _ hx)) ?_
    rw [show (b.send f r content).2 = ⟨appendToQueue b.queues r ⟨f, r, content⟩⟩ from rfl]
    rw [lookup_appendToQueue_ne _ _ _ _ (hrs r (List.mem_cons_self _ _))]
    exact hb

/-- C10: `receive(e)` removes entity `e`'s mailbox entry entirely, so a
broadcast on the drained bus does not list `e` as a recipient and
leaves `e` with no mailbox entry at all — nothing is delivered to `e`
until a later `register(e)` or direct send to `e` recreates the entry. -/
theorem C10_receive_unregisters_from_broadcast (bus : MessageBus)
    (e from_id content : String) (exclude : List String) :
    ((bus.receive e).2).lookup e = none ∧
    e ∉ broadcastRecipients (bus.receive e).2 from_id exclude ∧
    (((bus.receive e).2).broadcast from_id content exclude).lookup e = none ∧
    (((bus.receive e).2).broadcast from_id content exclude).peek e = [] := by
  have habsent := lookup_receive_self bus e
  have hkeys : ∀ r ∈ broadcastRecipients (bus.receive e).2 from_id exclude, r ≠ e := by
    intro r hr hre
    subst hre
    have habs2 := lookup_receive_self bus r
    unfold MessageBus.lookup at habs2
    rw [Option.map_eq_none', List.find?_eq_none] at habs2
    unfold broadcastRecipients at hr
    rw [List.mem_filter, List.mem_map] at hr
    obtain ⟨⟨p, hp, hpe⟩, -⟩ := hr
    exact habs2 p hp (by simp [hpe])
  have hbc : (((bus.receive e).2).broadcast from_id content exclude).lookup e = none :=
    broadcast_fold_preserves_absent from_id content e _ _ hkeys habsent
  refine ⟨habsent, fun hmem => (hkeys e hmem) rfl, hbc, ?_⟩
  unfold MessageBus.peek
  rw [hbc]
  rfl

end Agiraph

namespace Agiraph

/-- Embeds `ToolCall` from `src/agiraph/models.py`.  The Python `args`
is `dict[str, Any]`; argument values are opaque to every verified code
path, so they are embedded as strings. -/
structure ToolCall where
  name : String
  args : List (String × String) := []
  id : String := ""
deriving DecidableEq, Repr

/-- Embeds the `ToolImpl` callable type of `src/agiraph/tools/registry.py`:
an implementation receives the execution context and the named
arguments and either returns a result string or raises
(`Except.error`).  Awaiting an async implementation is transparent in
the embedding. -/
def ToolImpl (Ctx : Type) := Ctx → List (String × String) → Except String String

/-- Embeds `ToolRegistry._impls` (the `_tools` schema dict is read only
by the schema-filter queries, which no claim is about). -/
structure ToolRegistry (Ctx : Type) where
  impls : List (String × ToolImpl Ctx) := []

/-- Embeds `self._impls.get(tool_call.name)`. -/
def ToolRegistry.getImpl {Ctx : Type} (reg : ToolRegistry Ctx) (name : String) :
    Option (ToolImpl Ctx) :=
  (reg.impls.find? (fun p => p.1 == name)).map (·.2)

/-- Embeds `ToolRegistry.dispatch` from `src/agiraph/tools/registry.py`
(lines 46–60): unknown tool → error string; implementation raising →
error string naming the tool; otherwise the implementation's result.
`dispatch` is a total function into `String`: no exception escapes. -/
def ToolRegistry.dispatch {Ctx : Type} (reg : ToolRegistry Ctx)
    (tool_call : ToolCall) (context : Ctx) : String :=
  match reg.getImpl tool_call.name with
  | none => "Error: Unknown tool '" ++ tool_call.name ++ "'"
  | some impl =>
    match impl context tool_call.args with
    | .ok result => result
    | .error e => "Error executing " ++ tool_call.name ++ ": " ++ e

/-- C3: for every registry state and tool call, `dispatch` on an
unregistered name returns the unknown-tool error string, an
implementation that raises is caught and converted into an error string
naming the tool, and a normal result is returned as-is — `dispatch` is
total into `String`, so no exception ever propagates to the caller. -/
theorem C3_dispatch_never_raises {Ctx : Type} (reg : ToolRegistry Ctx)
    (tc : ToolCall) (context : Ctx) :
    (reg.getImpl tc.name = none →
      reg.dispatch tc context = "Error: Unknown tool '" ++ tc.name ++ "'") ∧
    (∀ impl e, reg.getImpl tc.name = some impl →
      impl context tc.args = .error e →
      reg.dispatch tc context = "Error executing " ++ tc.name ++ ": " ++ e) ∧
    (∀ impl r, reg.getImpl tc.name = some impl →
      impl context tc.args = .ok r →
      reg.dispatch tc context = r) := by
  refine ⟨?_, ?_, ?_⟩
  · intro h
    unfold ToolRegistry.dispatch
    rw [h]
  · intro impl e hi he
    unfold ToolRegistry.dispatch
    rw [hi]
    dsimp only
    rw [he]
  · intro impl r hi hr
    unfold ToolRegistry.dispatch
    rw [hi]
    dsimp only
    rw [hr]

/-- Concrete registry for the C3 witness: one tool `"t"` whose
implementation always raises `"boom"`. -/
def c3Registry : ToolRegistry Unit := ⟨[("t", fun _ _ => .error "boom")]⟩

def c3CallUnknown : ToolCall := { name := "u" }

def c3CallBoom : ToolCall := { name := "t" }

theorem C3_witness :
    c3Registry.dispatch c3CallUnknown () = "Error: Unknown tool 'u'" ∧
    c3Registry.dispatch c3CallBoom () = "Error executing t: boom" := by
  constructor
  · exact (C3_dispatch_never_raises c3Registry c3CallUnknown ()).1 rfl
  · exact (C3_dispatch_never_raises c3Registry c3CallBoom ()).2.1
      (fun _ _ => .error "boom") "boom" rfl rfl

end Agiraph

namespace Agiraph

/-- Worker-status lookup by id in a pool's worker list (the dict access
`self.worker_pool.get(wid)` composed with reading `.status`). -/
def workerStatus (ws : List Worker) (wid : String) : Option String :=
  (ws.find? (fun w => w.id == wid)).map (·.status)

/-- Node lookup by id (`self.board.get(nid)` on a list of nodes). -/
def lookupNode (ns : List WorkNode) (nid : String) : Option WorkNode :=
  ns.find? (fun n => n.id == nid)

/-- The worker half of `Scheduler._launch`: `worker.status = "busy"`,
applied to the worker with the given id. -/
def setWorkerBusy (ws : List Worker) (wid : String) : List Worker :=
  ws.map fun w => if w.id == wid then { w with status := "busy" } else w

/-- The node half of `Scheduler._launch`: `node.status = "assigned"`,
`node.assigned_worker = worker.id`. -/
def launchNodeOnBoard (ns : List WorkNode) (nid wid : String) : List WorkNode :=
  ns.map fun n =>
    if n.id == nid then { n with status := "assigned", assigned_worker := some wid } else n

/-- The state a `Scheduler.tick` leaves behind: the mutated pool and
board, plus the ordered list of `(node id, worker id)` pairs launched
during the tick (each pair is one `_launch` call, i.e. one
`asyncio.create_task` of `_execute_and_cleanup`). -/
structure TickOut where
  pool : List Worker
  board : List WorkNode
  launches : List (String × String)
deriving Repr

/-- Embeds the `for node in ready:` loop of `Scheduler.tick`
(`src/agiraph/scheduler.py` lines 33–63).  `ready` is the snapshot
`self.board.ready_nodes()`, `idle` the ids of the snapshot
`self.worker_pool.idle_workers()`; the Python loop mutates the live
`idle` list (filter after an assigned-worker launch, `pop(0)`
otherwise) and the shared pool/board objects. -/
def tickGo : List WorkNode → List String → List Worker → List WorkNode → TickOut
  | [], _idle, pool, board => ⟨pool, board, []⟩
  | node :: rest, idle, pool, board =>
    if idle.isEmpty then ⟨pool, board, []⟩
    else
      match node.assigned_worker with
      | some wid =>
        match pool.find? (fun w => w.id == wid) with
        | some w =>
          if w.status == "idle" then
            let r := tickGo rest (idle.filter (fun i => !(i == wid)))
              (setWorkerBusy pool wid) (launchNodeOnBoard board node.id wid)
            ⟨r.pool, r.board, (node.id, wid) :: r.launches⟩
          else tickGo rest idle pool board
        | none => tickGo rest idle pool board
      | none =>
        match idle with
        | [] => ⟨pool, board, []⟩
        | wid :: idleRest =>
          let r := tickGo rest idleRest (setWorkerBusy pool wid)
            (launchNodeOnBoard board node.id wid)
          ⟨r.pool, r.board, (node.id, wid) :: r.launches⟩

/-- Embeds the `Scheduler` object (`board` and `worker_pool`; the
executor factory and event bus only feed the launched tasks, which the
tick itself does not await). -/
structure Scheduler where
  board : WorkBoard
  worker_pool : WorkerPool

/-- Embeds `Scheduler.tick`. -/
def Scheduler.tick (s : Scheduler) : TickOut :=
  tickGo s.board.ready_nodes (s.worker_pool.idle_workers.map (·.id))
    s.worker_pool.workers s.board.nodes

theorem workerStatus_setBusy_self (ws : List Worker) (wid : String) (s : String)
    (h : workerStatus ws wid = some s) :
    workerStatus (setWorkerBusy ws wid) wid = some "busy" := by
  induction ws with
  | nil => simp [workerStatus] at h
  | cons a rest ih =>
    unfold workerStatus setWorkerBusy at *
    by_cases ha : a.id = wid
    · rw [List.map_cons, if_pos (by simpa using ha),
        List.find?_cons_of_pos _ (by simpa using ha)]
      rfl
    · rw [List.map_cons, if_neg (by simpa using ha),
        List.find?_cons_of_neg _ (by simpa using ha)]
      rw [List.find?_cons_of_neg _ (by simpa using ha)] at h
      exact ih h

theorem workerStatus_setBusy_ne (ws : List Worker) (wid x : String) (h : x ≠ wid) :
    workerStatus (setWorkerBusy ws wid) x = workerStatus ws x := by
  induction ws with
  | nil => rfl
  | cons a rest ih =>
    unfold workerStatus setWorkerBusy at *
    by_cases hax : a.id = x
    · have haw : ¬(a.id = wid) := fun hw => h (by rw [← hax, hw])
      rw [List.map_cons, if_neg (by simpa using haw),
        List.find?_cons_of_pos _ (by simpa using hax),
        List.find?_cons_of_pos _ (by simpa using hax)]
    · by_cases haw : a.id = wid
      · rw [List.map_cons, if_pos (by simpa using haw),
          List.find?_cons_of_neg _ (by simpa using hax),
          List.find?_cons_of_neg _ (by simpa using hax)]
        exact ih
      · rw [List.map_cons, if_neg (by simpa using haw),
          List.find?_cons_of_neg _ (by simpa using hax),
          List.find?_cons_of_neg _ (by simpa using hax)]
        exact ih

theorem workerStatus_setBusy_busy (ws : List Worker) (wid x : String)
    (h : workerStatus ws x = some "busy") :
    workerStatus (setWorkerBusy ws wid) x = some "busy" := by
  by_cases hx : x = wid
  · subst hx
    exact workerStatus_setBusy_self ws x "busy" h
  · rw [workerStatus_setBusy_ne ws wid x hx]
    exact h

theorem workerStatus_setBusy_idle_inv (ws : List Worker) (wid x : String)
    (hw : workerStatus ws wid = some "idle")
    (h : workerStatus (setWorkerBusy ws wid) x = some "idle") :
    x ≠ wid ∧ workerStatus ws x = some "idle" := by
  by_cases hx : x = wid
  · subst hx
    rw [workerStatus_setBusy_self ws x "idle" hw] at h
    simp at h
  · exact ⟨hx, by rw [workerStatus_setBusy_ne ws wid x hx] at h; exact h⟩

theorem lookupNode_launch_self (ns : List WorkNode) (nid wid : String) :
    lookupNode (launchNodeOnBoard ns nid wid) nid =
      (lookupNode ns nid).map
        (fun n => { n with status := "assigned", assigned_worker := some wid }) := by
  induction ns with
  | nil => rfl
  | cons a rest ih =>
    unfold lookupNode launchNodeOnBoard at *
    by_cases ha : a.id = nid
    · rw [List.map_cons, if_pos (by simpa using ha),
        List.find?_cons_of_pos _ (by simpa using ha),
        List.find?_cons_of_pos _ (by simpa using ha)]
      rfl
    · rw [List.map_cons, if_neg (by simpa using ha),
        List.find?_cons_of_neg _ (by simpa using ha),
        List.find?_cons_of_neg _ (by simpa using ha)]
      exact ih

theorem lookupNode_launch_ne (ns : List WorkNode) (nid nid' wid : String)
    (h : nid ≠ nid') :
    lookupNode (launchNodeOnBoard ns nid' wid) nid = lookupNode ns nid := by
  induction ns with
  | nil => rfl
  | cons a rest ih =>
    unfold lookupNode launchNodeOnBoard at *
    by_cases hax : a.id = nid
    · have haw : ¬(a.id = nid') := fun hw => h (by rw [← hax, hw])
      rw [List.map_cons, if_neg (by simpa using haw),
        List.find?_cons_of_pos _ (by simpa using hax),
        List.find?_cons_of_pos _ (by simpa using hax)]
    · by_cases haw : a.id = nid'
      · rw [List.map_cons, if_pos (by simpa using haw),
          List.find?_cons_of_neg _ (by simpa using hax),
          List.find?_cons_of_neg _ (by simpa using hax)]
        exact ih
      · rw [List.map_cons, if_neg (by simpa using haw),
          List.find?_cons_of_neg _ (by simpa using hax),
          List.find?_cons_of_neg _ (by simpa using hax)]
        exact ih

theorem tickGo_nil (idle : List String) (pool : List Worker) (board : List WorkNode) :
    tickGo [] idle pool board = ⟨pool, board, []⟩ := rfl

theorem tickGo_cons (node : WorkNode) (rest : List WorkNode) (idle : List String)
    (pool : List Worker) (board : List WorkNode) :
    tickGo (node :: rest) idle pool board =
      (if idle.isEmpty then ⟨pool, board, []⟩
      else
        match node.assigned_worker with
        | some wid =>
          match pool.find? (fun w => w.id == wid) with
          | some w =>
            if w.status == "idle" then
              let r := tickGo rest (idle.filter (fun i => !(i == wid)))
                (setWorkerBusy pool wid) (launchNodeOnBoard board node.id wid)
              ⟨r.pool, r.board, (node.id, wid) :: r.launches⟩
            else tickGo rest idle pool board
          | none => tickGo rest idle pool board
        | none =>
          match idle with
          | [] => ⟨pool, board, []⟩
          | wid :: idleRest =>
            let r := tickGo rest idleRest (setWorkerBusy pool wid)
              (launchNodeOnBoard board node.id wid)
            ⟨r.pool, r.board, (node.id, wid) :: r.launches⟩) := rfl

theorem tickGo_preserves_busy (ready : List WorkNode) :
    ∀ (idle : List String) (pool : List Worker) (board : List WorkNode) (x : String),
      workerStatus pool x = some "busy" →
      workerStatus (tickGo ready idle pool board).pool x = some "busy" := by
  induction ready with
  | nil => intro idle pool board x h; exact h
  | cons node rest ih =>
    intro idle pool board x h
    rw [tickGo_cons]
    split
    · exact h
    · split
      · split
        · split
          · dsimp only
            exact ih _ _ _ x (workerStatus_setBusy_busy _ _ _ h)
          · exact ih _ _ _ x h
        · exact ih _ _ _ x h
      · split
        · exact h
        · dsimp only
          exact ih _ _ _ x (workerStatus_setBusy_busy _ _ _ h)

theorem tickGo_board_ne (ready : List WorkNode) :
    ∀ (idle : List String) (pool : List Worker) (board : List WorkNode) (nid : String),
      nid ∉ ready.map (·.id) →
      lookupNode (tickGo ready idle pool board).board nid = lookupNode board nid := by
  induction ready with
  | nil => intro idle pool board nid _; rfl
  | cons node rest ih =>
    intro idle pool board nid hmem
    have hne : nid ≠ node.id := fun he => hmem (by rw [List.map_cons, he]; exact List.mem_cons_self _ _)
    have hrest : nid ∉ rest.map (·.id) := fun hr => hmem (by rw [List.map_cons]; exact List.mem_cons_of_mem _ hr)
    rw [tickGo_cons]
    split
    · rfl
    · split
      · split
        · split
          · dsimp only
            rw [ih _ _ _ nid hrest]
            exact lookupNode_launch_ne board nid node.id _ hne
          · exact ih _ _ _ nid hrest
        · exact ih _ _ _ nid hrest
      · split
        · rfl
        · dsimp only
          rw [ih _ _ _ nid hrest]
          exact lookupNode_launch_ne board nid node.id _ hne

theorem tickGo_spec (ready : List WorkNode) :
    ∀ (idle : List String) (pool : List Worker) (board : List WorkNode),
      (∀ i ∈ idle, workerStatus pool i = some "idle") →
      idle.Nodup →
      (ready.map (·.id)).Nodup →
      (∀ l ∈ (tickGo ready idle pool board).launches,
          workerStatus pool l.2 = some "idle") ∧
      ((tickGo ready idle pool board).launches.map Prod.snd).Nodup ∧
      (∀ l ∈ (tickGo ready idle pool board).launches,
          workerStatus (tickGo ready idle pool board).pool l.2 = some "busy") ∧
      (∀ l ∈ (tickGo ready idle pool board).launches,
          lookupNode (tickGo ready idle pool board).board l.1 =
            (lookupNode board l.1).map
              (fun n => { n with status := "assigned", assigned_worker := some l.2 })) ∧
      (∀ l ∈ (tickGo ready idle pool board).launches,
          ∃ n ∈ ready, n.id = l.1 ∧
            (n.assigned_worker = some l.2 ∨ n.assigned_worker = none)) := by
  induction ready with
  | nil =>
    intro idle pool board _ _ _
    refine ⟨?_, ?_, ?_, ?_, ?_⟩ <;> simp [tickGo_nil]
  | cons node rest ih =>
    intro idle pool board hidle hnodup hready
    have hreadyRest : (rest.map (·.id)).Nodup := (List.nodup_cons.mp hready).2
    have hheadRest : node.id ∉ rest.map (·.id) := (List.nodup_cons.mp hready).1
    rw [tickGo_cons]
    split
    · refine ⟨?_, ?_, ?_, ?_, ?_⟩ <;> simp
    · rename_i hempty
      split
      · rename_i wid haw
        split
        · rename_i w hfind
          split
          · -- launch on the node's already-assigned worker
            rename_i hst
            have hsw : w.status = "idle" := by simpa using hst
            have hwidle : workerStatus pool wid = some "idle" := by
              unfold workerStatus
              rw [hfind]
              simp [hsw]
            have hbusy : workerStatus (setWorkerBusy pool wid) wid = some "busy" :=
              workerStatus_setBusy_self pool wid "idle" hwidle
            have hinv : ∀ i ∈ idle.filter (fun i => !(i == wid)),
                workerStatus (setWorkerBusy pool wid) i = some "idle" := by
              intro i hi
              rw [List.mem_filter] at hi
              have hne : i ≠ wid := by simpa using hi.2
              rw [workerStatus_setBusy_ne pool wid i hne]
              exact hidle i hi.1
            obtain ⟨ihA, ihB, ihC, ihD, ihE⟩ :=
              ih (idle.filter (fun i => !(i == wid))) (setWorkerBusy pool wid)
                (launchNodeOnBoard board node.id wid) hinv (hnodup.filter _) hreadyRest
            dsimp only
            refine ⟨?_, ?_, ?_, ?_, ?_⟩
            · intro l hl
              rcases List.mem_cons.mp hl with hl | hl
              · rw [hl]; exact hwidle
              · exact ((workerStatus_setBusy_idle_inv pool wid l.2 hwidle (ihA l hl)).2)
            · rw [List.map_cons]
              refine List.nodup_cons.mpr ⟨?_, ihB⟩
              intro hmem
              obtain ⟨l, hl, hsnd⟩ := List.mem_map.mp hmem
              have hidl := ihA l hl
              rw [hsnd, hbusy] at hidl
              exact absurd (Option.some.inj hidl) (by decide)
            · intro l hl
              rcases List.mem_cons.mp hl with hl | hl
              · rw [hl]
                exact tickGo_preserves_busy rest _ _ _ wid hbusy
              · exact ihC l hl
            · intro l hl
              rcases List.mem_cons.mp hl with hl | hl
              · rw [hl]
                rw [tickGo_board_ne rest _ _ _ node.id hheadRest]
                exact lookupNode_launch_self board node.id wid
              · obtain ⟨n, hn, hnid, -⟩ := ihE l hl
                have hne : l.1 ≠ node.id := by
                  intro he
                  exact hheadRest (by rw [← he, ← hnid]; exact List.mem_map_of_mem _ hn)
                rw [ihD l hl, lookupNode_launch_ne board l.1 node.id wid hne]
            · intro l hl
              rcases List.mem_cons.mp hl with hl | hl
              · exact ⟨node, List.mem_cons_self _ _, by rw [hl], by rw [hl]; exact Or.inl haw⟩
              · obtain ⟨n, hn, hnid, hor⟩ := ihE l hl
                exact ⟨n, List.mem_cons_of_mem _ hn, hnid, hor⟩
          · -- assigned worker exists but is not idle: skip this node
            obtain ⟨ihA, ihB, ihC, ihD, ihE⟩ := ih idle pool board hidle hnodup hreadyRest
            refine ⟨ihA, ihB, ihC, ihD, fun l hl => ?_⟩
            obtain ⟨n, hn, hnid, hor⟩ := ihE l hl
            exact ⟨n, List.mem_cons_of_mem _ hn, hnid, hor⟩
        · -- assigned worker id not in the pool: skip this node
          obtain ⟨ihA, ihB, ihC, ihD, ihE⟩ := ih idle pool board hidle hnodup hreadyRest
          refine ⟨ihA, ihB, ihC, ihD, fun l hl => ?_⟩
          obtain ⟨n, hn, hnid, hor⟩ := ihE l hl
          exact ⟨n, List.mem_cons_of_mem _ hn, hnid, hor⟩
      · -- node has no assigned worker: pop the first idle worker
        rename_i haw
        split
        · refine ⟨?_, ?_, ?_, ?_, ?_⟩ <;> simp
        · rename_i wid idleRest
          have hwidle : workerStatus pool wid = some "idle" :=
            hidle wid (List.mem_cons_self _ _)
          have hbusy : workerStatus (setWorkerBusy pool wid) wid = some "busy" :=
            workerStatus_setBusy_self pool wid "idle" hwidle
          have hnr : wid ∉ idleRest ∧ idleRest.Nodup := List.nodup_cons.mp hnodup
          have hinv : ∀ i ∈ idleRest,
              workerStatus (setWorkerBusy pool wid) i = some "idle" := by
            intro i hi
            have hne : i ≠ wid := fun he => hnr.1 (he ▸ hi)
            rw [workerStatus_setBusy_ne pool wid i hne]
            exact hidle i (List.mem_cons_of_mem _ hi)
          obtain ⟨ihA, ihB, ihC, ihD, ihE⟩ :=
            ih idleRest (setWorkerBusy pool wid)
              (launchNodeOnBoard board node.id wid) hinv hnr.2 hreadyRest
          dsimp only
          refine ⟨?_, ?_, ?_, ?_, ?_⟩
          · intro l hl
            rcases List.mem_cons.mp hl with hl | hl
            · rw [hl]; exact hwidle
            · exact ((workerStatus_setBusy_idle_inv pool wid l.2 hwidle (ihA l hl)).2)
          · rw [List.map_cons]
            refine List.nodup_cons.mpr ⟨?_, ihB⟩
            intro hmem
            obtain ⟨l, hl, hsnd⟩ := List.mem_map.mp hmem
            have hidl := ihA l hl
            rw [hsnd, hbusy] at hidl
            exact absurd (Option.some.inj hidl) (by decide)
          · intro l hl
            rcases List.mem_cons.mp hl with hl | hl
            · rw [hl]
              exact tickGo_preserves_busy rest _ _ _ wid hbusy
            · exact ihC l hl
          · intro l hl
            rcases List.mem_cons.mp hl with hl | hl
            · rw [hl]
              rw [tickGo_board_ne rest _ _ _ node.id hheadRest]
              exact lookupNode_launch_self board node.id wid
            · obtain ⟨n, hn, hnid, -⟩ := ihE l hl
              have hne : l.1 ≠ node.id := by
                intro he
                exact hheadRest (by rw [← he, ← hnid]; exact List.mem_map_of_mem _ hn)
              rw [ihD l hl, lookupNode_launch_ne board l.1 node.id wid hne]
          · intro l hl
            rcases List.mem_cons.mp hl with hl | hl
            · exact ⟨node, List.mem_cons_self _ _, by rw [hl], by rw [hl]; exact Or.inr haw⟩
            · obtain ⟨n, hn, hnid, hor⟩ := ihE l hl
              exact ⟨n, List.mem_cons_of_mem _ hn, hnid, hor⟩

theorem find?_worker_eq (ws : List Worker) (hN : (ws.map (·.id)).Nodup)
    (w : Worker) (hw : w ∈ ws) :
    ws.find? (fun x => x.id == w.id) = some w := by
  induction ws with
  | nil => cases hw
  | cons a rest ih =>
    rcases List.mem_cons.mp hw with h | h
    · subst h
      exact List.find?_cons_of_pos _ (by simp)
    · have hne : a.id ≠ w.id := by
        intro he
        have hmem : w.id ∈ rest.map (fun x => x.id) := List.mem_map_of_mem _ h
        rw [← he] at hmem
        exact (List.nodup_cons.mp hN).1 hmem
      rw [List.find?_cons_of_neg _ (by simpa using hne)]
      exact ih (List.nodup_cons.mp hN).2 h

theorem find?_node_eq (ns : List WorkNode) (hN : (ns.map (·.id)).Nodup)
    (n : WorkNode) (hn : n ∈ ns) :
    ns.find? (fun x => x.id == n.id) = some n := by
  induction ns with
  | nil => cases hn
  | cons a rest ih =>
    rcases List.mem_cons.mp hn with h | h
    · subst h
      exact List.find?_cons_of_pos _ (by simp)
    · have hne : a.id ≠ n.id := by
        intro he
        have hmem : n.id ∈ rest.map (fun x => x.id) := List.mem_map_of_mem _ h
        rw [← he] at hmem
        exact (List.nodup_cons.mp hN).1 hmem
      rw [List.find?_cons_of_neg _ (by simpa using hne)]
      exact ih (List.nodup_cons.mp hN).2 h

/-- C2: within any one `Scheduler.tick` on any board/pool state (so in
particular across every sequence of ticks), no worker is selected for a
second item: the launched worker ids are pairwise distinct, every
launched worker was idle at the moment of its launch (a busy worker is
never assigned), each launch leaves the worker busy and the node
assigned to that worker, and a node that already named an assigned
worker is launched only on that worker. -/
theorem C2_tick_no_double_assignment (s : Scheduler)
    (hW : (s.worker_pool.workers.map (·.id)).Nodup)
    (hN : (s.board.nodes.map (·.id)).Nodup) :
    ((s.tick.launches.map Prod.snd).Nodup) ∧
    (∀ l ∈ s.tick.launches,
        workerStatus s.worker_pool.workers l.2 = some "idle") ∧
    (∀ l ∈ s.tick.launches, workerStatus s.tick.pool l.2 = some "busy") ∧
    (∀ l ∈ s.tick.launches, ∃ n, lookupNode s.board.nodes l.1 = some n ∧
        (n.assigned_worker = some l.2 ∨ n.assigned_worker = none) ∧
        lookupNode s.tick.board l.1 =
          some { n with status := "assigned", assigned_worker := some l.2 }) := by
  have hidleInv : ∀ i ∈ (s.worker_pool.idle_workers.map (·.id)),
      workerStatus s.worker_pool.workers i = some "idle" := by
    intro i hi
    obtain ⟨w, hw, hwi⟩ := List.mem_map.mp hi
    unfold WorkerPool.idle_workers at hw
    have hwmem : w ∈ s.worker_pool.workers := List.mem_of_mem_filter hw
    have hst : w.status = "idle" := by simpa using (List.mem_filter.mp hw).2
    subst hwi
    unfold workerStatus
    rw [find?_worker_eq _ hW w hwmem]
    simp [hst]
  have hidleNodup : ((s.worker_pool.idle_workers.map (·.id))).Nodup :=
    hW.sublist (List.Sublist.map _ (List.filter_sublist _))
  have hreadyNodup : (s.board.ready_nodes.map (·.id)).Nodup :=
    hN.sublist (List.Sublist.map _ (List.filter_sublist _))
  obtain ⟨hA, hB, hC, hD, hE⟩ := tickGo_spec s.board.ready_nodes
    (s.worker_pool.idle_workers.map (·.id)) s.worker_pool.workers s.board.nodes
    hidleInv hidleNodup hreadyNodup
  refine ⟨hB, hA, hC, ?_⟩
  intro l hl
  obtain ⟨n, hn, hnid, hor⟩ := hE l hl
  have hnmem : n ∈ s.board.nodes := List.mem_of_mem_filter hn
  have hlook : lookupNode s.board.nodes n.id = some n := find?_node_eq _ hN n hnmem
  refine ⟨n, by rw [← hnid]; exact hlook, hor, ?_⟩
  have hmap := hD l hl
  unfold Scheduler.tick
  rw [← hnid] at hmap ⊢
  rw [hmap, hlook]
  rfl

/-- Concrete scenario for the C2 witness (the spec's §8 scenario): a
board with a ready node `A` and a blocked node `B`, one idle worker. -/
def c2NodeA : WorkNode := { id := "A", task := "fetch" }

def c2NodeB : WorkNode := { id := "B", task := "summarize", dependencies := ["A"] }

def c2Worker : Worker := { id := "w1", name := "alice" }

def c2Sched : Scheduler :=
  { board := { nodes := [c2NodeA, c2NodeB] },
    worker_pool := { workers := [c2Worker] } }

theorem C2_witness :
    ((c2Sched.tick.launches.map Prod.snd).Nodup) ∧
    (∀ l ∈ c2Sched.tick.launches,
        workerStatus c2Sched.worker_pool.workers l.2 = some "idle") := by
  have h := C2_tick_no_double_assignment c2Sched (by decide) (by decide)
  exact ⟨h.1, h.2.1⟩

end Agiraph

namespace Agiraph

/-- The state `Scheduler._execute_and_cleanup` leaves behind, plus
whether the `finally` block triggered `await self.tick()`. -/
structure CleanupOut where
  node : WorkNode
  worker : Worker
  tickTriggered : Bool
deriving DecidableEq, Repr

/-- Embeds `Scheduler._execute_and_cleanup` (`src/agiraph/scheduler.py`
lines 65–82) from the point where the awaited
`self._executor_factory(worker, node)` finished: `outcome` is its
returned result string (`Except.ok`) or the text of the exception it
raised (`Except.error`); `node` and `worker` are in the states the
executor left them.  The `_running_tasks` bookkeeping is not modelled;
the final `await self.tick()` is recorded as `tickTriggered`. -/
def executeAndCleanup (node : WorkNode) (worker : Worker)
    (outcome : Except String String) : CleanupOut :=
  let node :=
    match outcome with
    | .ok result =>
      if !(node.status == "completed" || node.status == "failed") then
        { node with status := "completed", result := some result }
      else node
    | .error e =>
      { node with status := "failed", result := some ("Execution error: " ++ e) }
  let worker :=
    if worker.status == "busy" then { worker with status := "idle" } else worker
  ⟨node, worker, true⟩

/-- C9: whenever a launched node's execution task finishes, the cleanup
leaves the node in a terminal status and releases the worker: a normal
return that did not already set a terminal status forces the node to
completed with the returned result, an exception sets the node failed
with the error recorded in its result, a still-busy worker is reset to
idle (and an already non-busy worker is untouched), and a new scheduler
tick is always triggered. -/
theorem C9_cleanup_terminal_and_release (node : WorkNode) (worker : Worker)
    (outcome : Except String String) :
    ((executeAndCleanup node worker outcome).node.status = "completed" ∨
      (executeAndCleanup node worker outcome).node.status = "failed") ∧
    (∀ r, outcome = .ok r → node.status ≠ "completed" → node.status ≠ "failed" →
      (executeAndCleanup node worker outcome).node =
        { node with status := "completed", result := some r }) ∧
    (∀ r, outcome = .ok r → (node.status = "completed" ∨ node.status = "failed") →
      (executeAndCleanup node worker outcome).node = node) ∧
    (∀ e, outcome = .error e →
      (executeAndCleanup node worker outcome).node =
        { node with status := "failed", result := some ("Execution error: " ++ e) }) ∧
    (worker.status = "busy" →
      (executeAndCleanup node worker outcome).worker = { worker with status := "idle" }) ∧
    (worker.status ≠ "busy" →
      (executeAndCleanup node worker outcome).worker = worker) ∧
    (executeAndCleanup node worker outcome).tickTriggered = true := by
  unfold executeAndCleanup
  refine ⟨?_, ?_, ?_, ?_, ?_, ?_, rfl⟩
  · cases outcome with
    | ok r =>
      by_cases hc : node.status = "completed"
      · simp [hc]
      · by_cases hf : node.status = "failed"
        · simp [hc, hf]
        · simp [hc, hf]
    | error e => simp
  · intro r hr hc hf
    subst hr
    simp [hc, hf]
  · intro r hr hcf
    subst hr
    rcases hcf with h | h <;> simp [h]
  · intro e he
    subst he
    rfl
  · intro hb
    simp [hb]
  · intro hb
    simp only []
    rw [if_neg (by simpa using hb)]

/-- Concrete cleanup runs for the C9 witness: a node still `running`
whose executor returned normally, with a busy worker; and one whose
executor raised. -/
def c9Node : WorkNode := { id := "n", status := "running" }

def c9Worker : Worker := { id := "w", status := "busy" }

theorem C9_witness :
    (executeAndCleanup c9Node c9Worker (.ok "done")).node =
      { c9Node with status := "completed", result := some "done" } ∧
    (executeAndCleanup c9Node c9Worker (.error "boom")).node =
      { c9Node with status := "failed", result := some "Execution error: boom" } ∧
    (executeAndCleanup c9Node c9Worker (.ok "done")).worker =
      { c9Worker with status := "idle" } := by
  refine ⟨?_, ?_, ?_⟩
  · exact (C9_cleanup_terminal_and_release c9Node c9Worker (.ok "done")).2.1
      "done" rfl (by decide) (by decide)
  · exact (C9_cleanup_terminal_and_release c9Node c9Worker (.error "boom")).2.2.2.1
      "boom" rfl
  · exact (C9_cleanup_terminal_and_release c9Node c9Worker (.ok "done")).2.2.2.2.1 rfl

end Agiraph

namespace Agiraph

/-- One observable effect of the coordinator's backend-failure handling
(`Coordinator.run`, `src/agiraph/coordinator.py` lines 115–148). -/
inductive CoordEvent where
  /-- `event_bus.emit_simple("tool.error", ..., error=str(e), source="coordinator")` -/
  | errorEmitted (msg : String)
  /-- `await asyncio.sleep(backoff)` -/
  | sleep (seconds : Nat)
  /-- `await asyncio.wait_for(self._human_wakeup.wait(), timeout=...)`
  (returns on a human wakeup or on the timeout; neither raises out) -/
  | humanWait (timeoutSeconds : Nat)
  /-- `self.agent.status = ...` -/
  | statusSet (status : String)
deriving DecidableEq, Repr

/-- The coordinator-loop state the failure handling reads and writes:
the `consecutive_errors` counter, the agent status, and the trace of
effects so far. -/
structure CoordLoopSt where
  consecutive_errors : Nat
  agentStatus : String
  trace : List CoordEvent
deriving DecidableEq, Repr

/-- The backoff expression
`min(3 * (2 ** (consecutive_errors - 1)), 60)`. -/
def backoffSeconds (consecutive_errors : Nat) : Nat :=
  min (3 * 2 ^ (consecutive_errors - 1)) 60

/-- Embeds the `try/except` around `self.provider.generate(...)` in the
coordinator loop, for one turn: `failure = none` is a successful
backend call (`consecutive_errors = 0  # reset on success`); `some e`
is a raised exception.  A failure increments the counter, emits an
error event and either (fewer than 5 consecutive failures) sleeps the
computed backoff, or (5th consecutive failure) sets the agent status to
`waiting_for_human`, waits for a human wakeup with a 300 s timeout,
resets the counter to zero and sets the status back to `working`.
Both failure paths end in `continue`: the function is total and the
loop is never exited by a backend failure. -/
def coordinatorBackendStep (st : CoordLoopSt) (failure : Option String) : CoordLoopSt :=
  match failure with
  | none => { st with consecutive_errors := 0 }
  | some e =>
    let ce := st.consecutive_errors + 1
    let backoff := backoffSeconds ce
    let st := { st with consecutive_errors := ce,
                        trace := st.trace ++ [CoordEvent.errorEmitted e] }
    if ce ≥ 5 then
      { st with consecutive_errors := 0,
                agentStatus := "working",
                trace := st.trace ++
                  [CoordEvent.statusSet "waiting_for_human", CoordEvent.humanWait 300, CoordEvent.statusSet "working"] }
    else
      { st with trace := st.trace ++ [CoordEvent.sleep backoff] }

/-- A sequence of coordinator turns, each with its backend outcome. -/
def coordinatorBackendRun (st : CoordLoopSt) : List (Option String) → CoordLoopSt
  | [] => st
  | o :: rest => coordinatorBackendRun (coordinatorBackendStep st o) rest

def coordInit : CoordLoopSt := ⟨0, "working", []⟩

def c5FiveFailures : List (Option String) :=
  [some "e1", some "e2", some "e3", some "e4", some "e5"]

/-- C5 counterexample: the claimed backoff delays "3s, 6s, 12s, 24s,
48s, capped at 60s" do not occur — five consecutive failures sleep only
3 s, 6 s, 12 s and 24 s; the 5th failure takes the waiting-for-human
path instead of sleeping its computed 48 s backoff (and the 60 s cap is
never reached, since the counter is reset at 5). -/
theorem C5_counterexample :
    ((coordinatorBackendRun coordInit c5FiveFailures).trace.filter
        (fun ev => match ev with | CoordEvent.sleep _ => true | _ => false)) =
      [CoordEvent.sleep 3, CoordEvent.sleep 6, CoordEvent.sleep 12, CoordEvent.sleep 24] ∧
    CoordEvent.sleep 48 ∉ (coordinatorBackendRun coordInit c5FiveFailures).trace ∧
    CoordEvent.statusSet "waiting_for_human" ∈
      (coordinatorBackendRun coordInit c5FiveFailures).trace := by
  refine ⟨by decide, by decide, by decide⟩

/-- C5 (amended): on consecutive backend-call failures the coordinator
emits an error event per failure and backs off with doubling delays
`min(3·2^(k−1), 60)` s — 3 s, 6 s, 12 s, 24 s on the first four
consecutive failures; the 5th consecutive failure does not sleep but
sets the agent status to waiting-for-human without raising, waits for a
human wakeup or a 300 s timeout, resets the counter to zero and
resumes working; a successful backend call resets the counter to zero;
every failure path yields a successor state (the loop continues — the
run is never ended by the failure handling itself). -/
theorem C5_backoff_and_human_pause (st : CoordLoopSt) :
    (∀ e, st.consecutive_errors + 1 < 5 →
      coordinatorBackendStep st (some e) =
        { st with consecutive_errors := st.consecutive_errors + 1,
                  trace := st.trace ++
                    [CoordEvent.errorEmitted e,
                     CoordEvent.sleep (backoffSeconds (st.consecutive_errors + 1))] }) ∧
    (∀ e, st.consecutive_errors + 1 ≥ 5 →
      coordinatorBackendStep st (some e) =
        { st with consecutive_errors := 0,
                  agentStatus := "working",
                  trace := st.trace ++
                    [CoordEvent.errorEmitted e, CoordEvent.statusSet "waiting_for_human",
                     CoordEvent.humanWait 300, CoordEvent.statusSet "working"] }) ∧
    (coordinatorBackendStep st none = { st with consecutive_errors := 0 }) ∧
    (backoffSeconds 1 = 3 ∧ backoffSeconds 2 = 6 ∧ backoffSeconds 3 = 12 ∧
      backoffSeconds 4 = 24 ∧ backoffSeconds 5 = 48 ∧
      ∀ k, 6 ≤ k → backoffSeconds k = 60) := by
  refine ⟨?_, ?_, rfl, by decide, by decide, by decide, by decide, by decide, ?_⟩
  · intro e hlt
    unfold coordinatorBackendStep
    dsimp only
    rw [if_neg (by omega)]
    simp
  · intro e hge
    unfold coordinatorBackendStep
    dsimp only
    rw [if_pos hge]
    simp
  · intro k hk
    unfold backoffSeconds
    have h32 : (32 : Nat) ≤ 2 ^ (k - 1) := by
      calc (32 : Nat) = 2 ^ 5 := by norm_num
      _ ≤ 2 ^ (k - 1) := Nat.pow_le_pow_right (by norm_num) (by omega)
    have : (60 : Nat) ≤ 3 * 2 ^ (k - 1) := by
      calc (60 : Nat) ≤ 3 * 32 := by norm_num
      _ ≤ 3 * 2 ^ (k - 1) := Nat.mul_le_mul_left 3 h32
    omega

theorem C5_witness :
    coordinatorBackendStep ⟨2, "working", []⟩ (some "err") =
      ⟨3, "working", [CoordEvent.errorEmitted "err", CoordEvent.sleep 12]⟩ ∧
    coordinatorBackendStep ⟨4, "working", []⟩ (some "err") =
      ⟨0, "working", [CoordEvent.errorEmitted "err", CoordEvent.statusSet "waiting_for_human",
                      CoordEvent.humanWait 300, CoordEvent.statusSet "working"]⟩ := by
  constructor
  · exact (C5_backoff_and_human_pause ⟨2, "working", []⟩).1 "err" (by decide)
  · exact (C5_backoff_and_human_pause ⟨4, "working", []⟩).2.1 "err" (by decide)

end Agiraph

namespace Agiraph

/-- The Python substring test `sub in s`, on the character lists. -/
def containsSub (sub s : String) : Bool :=
  decide (sub.data <:+: s.data)

/-- One observable action of the coordinator's tool-call block
(`Coordinator.run`, `src/agiraph/coordinator.py` lines 163–209). -/
inductive CoordAction where
  /-- `self.conversation.append({"role": "tool", ..., "name": name, ...})` -/
  | appendResult (name : String)
  /-- `await self._yield_point()` — the suspension point that drains the
  coordinator mailbox into the conversation -/
  | yieldPt
  /-- `await self._maybe_launch_workers()` -/
  | launchWork
deriving DecidableEq, Repr

/-- What the `for tc in response.tool_calls:` loop accumulates: the
tool-result conversation appends in order, the finish flag
(`tc.name == "finish" or "AGENT_FINISHED" in result` breaks the loop),
and whether `"launch_workers"` was recorded in `post_actions`
(`assign_worker` / `spawn_worker` / `create_work_node` before the
finish check, `reconvene` after it). -/
structure ToolLoopOut where
  appends : List CoordAction
  finished : Bool
  launch : Bool
deriving DecidableEq, Repr

/-- Embeds the coordinator's tool-call loop.  The `tool.called` /
`tool.result` event emissions are synchronous appends to the event bus
and are not suspension points; they are not traced. -/
def processToolCalls {Ctx : Type} (reg : ToolRegistry Ctx) (context : Ctx) :
    List ToolCall → ToolLoopOut
  | [] => ⟨[], false, false⟩
  | tc :: rest =>
    let result := reg.dispatch tc context
    let launch1 := tc.name == "assign_worker" || tc.name == "spawn_worker" ||
      tc.name == "create_work_node"
    if tc.name == "finish" || containsSub "AGENT_FINISHED" result then
      ⟨[CoordAction.appendResult tc.name], true, launch1⟩
    else
      let launch2 := launch1 || tc.name == "reconvene"
      let r := processToolCalls reg context rest
      ⟨CoordAction.appendResult tc.name :: r.appends, r.finished, launch2 || r.launch⟩

/-- Embeds the whole tool-call phase of one coordinator turn: the loop,
then (only when the response carried tool calls at all) the
unconditional `await self._yield_point()` and the conditional
`await self._maybe_launch_workers()`. -/
def coordinatorToolPhase {Ctx : Type} (reg : ToolRegistry Ctx) (context : Ctx)
    (tool_calls : List ToolCall) : List CoordAction :=
  if tool_calls.isEmpty then []
  else
    let r := processToolCalls reg context tool_calls
    r.appends ++ [CoordAction.yieldPt] ++ (if r.launch then [CoordAction.launchWork] else [])

/-- The tool calls the coordinator actually dispatches from a response:
everything up to and including the first finish-signalling call (the
loop `break`s there and the remaining calls are never dispatched). -/
def dispatchedPrefix {Ctx : Type} (reg : ToolRegistry Ctx) (context : Ctx) :
    List ToolCall → List ToolCall
  | [] => []
  | tc :: rest =>
    if tc.name == "finish" || containsSub "AGENT_FINISHED" (reg.dispatch tc context) then
      [tc]
    else
      tc :: dispatchedPrefix reg context rest

theorem processToolCalls_appends {Ctx : Type} (reg : ToolRegistry Ctx) (context : Ctx) :
    ∀ tool_calls : List ToolCall,
      (processToolCalls reg context tool_calls).appends =
        (dispatchedPrefix reg context tool_calls).map
          (fun tc => CoordAction.appendResult tc.name)
  | [] => rfl
  | tc :: rest => by
    rw [processToolCalls, dispatchedPrefix]
    by_cases h : (tc.name == "finish" || containsSub "AGENT_FINISHED" (reg.dispatch tc context)) = true
    · rw [if_pos h, if_pos h]
      rfl
    · rw [if_neg h, if_neg h]
      dsimp only
      rw [List.map_cons, processToolCalls_appends reg context rest]

theorem dispatchedPrefix_isPrefix {Ctx : Type} (reg : ToolRegistry Ctx) (context : Ctx) :
    ∀ tool_calls : List ToolCall,
      dispatchedPrefix reg context tool_calls <+: tool_calls
  | [] => List.prefix_refl _
  | tc :: rest => by
    rw [dispatchedPrefix]
    by_cases h : (tc.name == "finish" || containsSub "AGENT_FINISHED" (reg.dispatch tc context)) = true
    · rw [if_pos h]
      exact ⟨rest, rfl⟩
    · rw [if_neg h]
      obtain ⟨t, ht⟩ := dispatchedPrefix_isPrefix reg context rest
      exact ⟨t, by rw [List.cons_append, ht]⟩

/-- Concrete input for the C4 counterexample: a response whose first
tool call is named `finish` followed by a second call, dispatched
against an empty registry. -/
def c4Registry : ToolRegistry Unit := ⟨[]⟩

def c4FinishCall : ToolCall := { name := "finish" }

def c4CreateCall : ToolCall := { name := "create_work_node" }

/-- C4 counterexample: when a `finish` call precedes another tool call
in the same response, the loop breaks at the finish call — the second
call is never dispatched and no result for it is ever appended, yet the
yield point still runs; so "every tool call contained in the backend
response is dispatched and its result appended before any suspension
point" fails on this response. -/
theorem C4_counterexample :
    coordinatorToolPhase c4Registry () [c4FinishCall, c4CreateCall] =
      [CoordAction.appendResult "finish", CoordAction.yieldPt] ∧
    CoordAction.appendResult "create_work_node" ∉
      coordinatorToolPhase c4Registry () [c4FinishCall, c4CreateCall] := by
  refine ⟨by decide, by decide⟩

/-- C4 (amended): in every coordinator turn, the tool calls up to and
including the first finish-signalling call — a prefix of the response's
calls, and all of them when no call signals finish — are dispatched in
order and their results appended to the conversation before any
suspension point: the trace of the tool phase is exactly those appends,
then the single yield point, then (at most) the scheduler launch;
calls after a finish signal are skipped. -/
theorem C4_tool_results_before_suspension {Ctx : Type} (reg : ToolRegistry Ctx)
    (context : Ctx) (tool_calls : List ToolCall) (h : tool_calls ≠ []) :
    (∃ b : Bool, coordinatorToolPhase reg context tool_calls =
      (dispatchedPrefix reg context tool_calls).map
          (fun tc => CoordAction.appendResult tc.name)
        ++ [CoordAction.yieldPt]
        ++ (if b then [CoordAction.launchWork] else [])) ∧
    dispatchedPrefix reg context tool_calls <+: tool_calls := by
  refine ⟨⟨(processToolCalls reg context tool_calls).launch, ?_⟩,
    dispatchedPrefix_isPrefix reg context tool_calls⟩
  unfold coordinatorToolPhase
  rw [if_neg (by simpa using h)]
  dsimp only
  rw [processToolCalls_appends reg context tool_calls]

theorem C4_witness :
    (∃ b : Bool, coordinatorToolPhase c4Registry () [c4FinishCall, c4CreateCall] =
      (dispatchedPrefix c4Registry () [c4FinishCall, c4CreateCall]).map
          (fun tc => CoordAction.appendResult tc.name)
        ++ [CoordAction.yieldPt]
        ++ (if b then [CoordAction.launchWork] else [])) ∧
    dispatchedPrefix c4Registry () [c4FinishCall, c4CreateCall] <+:
      [c4FinishCall, c4CreateCall] :=
  C4_tool_results_before_suspension c4Registry () [c4FinishCall, c4CreateCall]
    (by decide)

end Agiraph

namespace Agiraph

/-- A backend response as the worker loop consumes it (the normalized
model-call contract: optional text plus tool calls; token usage and the
raw payload are not read by the loop logic). -/
structure WResponse where
  text : Option String := none
  tool_calls : List ToolCall := []
deriving Repr

/-- The mutable state a `WorkerExecutor.execute` run threads
(`src/agiraph/worker.py`): the node and worker objects, the shared
message bus plus a log of every `send` this execution performed, the
conversation as (role, content) pairs, the content of the node's
`failure_notes.md` once written, and the `self.finished` flag.
Tool implementations are embedded as pure functions (the registry of
`ToolRegistry`), so a dispatched tool mutates no executor state; the
per-iteration `log.jsonl` append and the event emissions write only to
unmodelled side channels. -/
structure ExecSt where
  node : WorkNode
  worker : Worker
  bus : MessageBus
  sent : List Message
  conversation : List (String × String)
  notesFile : Option String
  finished : Bool
deriving Repr

/-- `self.context.message_bus.send(...)`, with the sent message
logged. -/
def ExecSt.sendMsg (st : ExecSt) (from_id to_id content : String) : ExecSt :=
  let r := st.bus.send from_id to_id content
  { st with bus := r.2, sent := st.sent ++ [r.1] }

/-- Embeds `WorkerExecutor._yield_point` (worker.py lines 271–281):
drain the worker's mailbox into the conversation as injected user
turns. -/
def ExecSt.yieldPoint (st : ExecSt) : ExecSt :=
  let r := st.bus.receive st.worker.name
  { st with bus := r.2,
            conversation := st.conversation ++
              r.1.map (fun m =>
                ("user", "[Message from " ++ m.from_id ++ "]: " ++ m.content)) }

/-- Embeds `WorkerExecutor._build_initial_message` (worker.py lines
244–269).  The referenced-upstream-outputs section reads ref files from
disk and is omitted (no claim reads the initial message's text); the
workspace section is kept, conditional on the node's data directory,
as in the source. -/
def buildInitialMessage (node : WorkNode) : String :=
  let parts := ["## Your Assignment\n\n" ++ node.task]
  let parts :=
    match node.data_dir with
    | some _ => parts ++
        ["## Your Workspace\n\n- Scratch dir: nodes/" ++ node.id ++
          "/scratch/ (write WIP here)\n- Published dir: nodes/" ++ node.id ++
          "/published/ (populated by publish())\n"]
    | none => parts
  String.intercalate "\n\n" parts

/-- The state at the top of `WorkerExecutor.execute` (lines 43–62):
node running, worker busy, the initial user message in the
conversation. -/
def initialExecSt (worker : Worker) (node : WorkNode) (bus : MessageBus) : ExecSt :=
  { node := { node with status := "running" },
    worker := { worker with status := "busy" },
    bus := bus,
    sent := [],
    conversation := [("user", buildInitialMessage node)],
    notesFile := none,
    finished := false }

/-- Embeds the `for tc in response.tool_calls:` loop of
`WorkerExecutor.execute` (lines 135–179): per call, a yield point, the
dispatch (the registry's `dispatch` already converts any exception into
an error string), the tool-result conversation append, then the
terminal checks — `tc.name == "publish"` or `"AGENT_FINISHED" in
result` set `finished` and return the result, ending the loop. -/
def procWorkerToolCalls (reg : ToolRegistry Unit) :
    ExecSt → List ToolCall → ExecSt × Option String
  | st, [] => (st, none)
  | st, tc :: rest =>
    let st := st.yieldPoint
    let result := reg.dispatch tc ()
    let st := { st with conversation := st.conversation ++ [("tool", result)] }
    if tc.name == "publish" then ({ st with finished := true }, some result)
    else if containsSub "AGENT_FINISHED" result then ({ st with finished := true }, some result)
    else procWorkerToolCalls reg st rest

/-- How one run of the worker's iteration loop ended. -/
inductive LoopExit where
  /-- a `return result` inside the loop (publish or finish signal) -/
  | returned (result : String)
  /-- the `break` on a response with no tool calls and no text -/
  | stalled
  /-- `range(self.worker.max_iterations)` ran out -/
  | exhausted
deriving DecidableEq, Repr

/-- Embeds the iteration loop of `WorkerExecutor.execute` (lines
64–187) on its success path: `responses` is the oracle of backend
responses per iteration (the backend-failure retry path, lines 71–124,
is a separate exit not taken on runs whose every call succeeds). -/
def execLoop (reg : ToolRegistry Unit) (responses : Nat → WResponse) :
    ExecSt → Nat → Nat → ExecSt × LoopExit
  | st, _iter, 0 => (st, .exhausted)
  | st, iter, fuel + 1 =>
    let st := st.yieldPoint
    let resp := responses iter
    let st := { st with conversation := st.conversation ++ [("assistant", resp.text.getD "")] }
    if resp.tool_calls.isEmpty then
      if (resp.text.getD "") == "" then (st, .stalled)
      else execLoop reg responses st (iter + 1) fuel
    else
      match procWorkerToolCalls reg st resp.tool_calls with
      | (st, some r) => (st, .returned r)
      | (st, none) => execLoop reg responses st (iter + 1) fuel

/-- Embeds `WorkerExecutor._save_failure_notes` (worker.py lines
300–329) up to the returned text.  Conversation entries whose content
is empty are skipped as in the source; entries that in Python would be
rendered from a `tool_calls` field are carried here as their text
content (the notes' exact prose is not claimed by any property). -/
def buildFailureNotes (st : ExecSt) (error1 error2 : String) : String :=
  let parts := ["# Failure Report — " ++ st.worker.name,
                "**Node**: " ++ st.node.id,
                "**Task**: " ++ st.node.task]
  let parts := if error1 != "" then parts ++ ["**First error**: " ++ error1] else parts
  let parts := if error2 != "" then parts ++ ["**Second error**: " ++ error2] else parts
  let parts := parts ++
    ["\n## Conversation (" ++ toString st.conversation.length ++ " messages)"]
  let parts := parts ++
    (st.conversation.filter (fun m => m.2 != "")).map
      (fun m => "**[" ++ m.1 ++ "]** " ++ m.2.take 500)
  String.intercalate "\n\n" parts

/-- The `[WORKER FAILED] ... hit max iterations ...` message text sent
to the coordinator (worker.py lines 193–199). -/
def failMessageText (st : ExecSt) (notesRet : String) : String :=
  "[WORKER FAILED] " ++ st.worker.name ++ " hit max iterations on node [" ++
    st.node.id ++ "].\nTask: " ++ st.node.task.take 200 ++ "\nWorker notes:\n" ++
    notesRet.take 1500

/-- Embeds the max-iterations failure block of `WorkerExecutor.execute`
(lines 189–210): save the failure notes (written to the node's data
directory when it has one; the return value is truncated to 2000
characters), send one message to the coordinator (the message bus is
present in this embedding), mark the node failed with the
max-iterations result text, set the worker idle, return the result. -/
def workerFailMaxIterations (st : ExecSt) : ExecSt × String :=
  let notes := buildFailureNotes st "Max iterations reached" ""
  let st :=
    match st.node.data_dir with
    | some _ => { st with notesFile := some notes }
    | none => st
  let notesRet := notes.take 2000
  let st := st.sendMsg st.worker.name "coordinator" (failMessageText st notesRet)
  let result := "Max iterations (" ++ toString st.worker.max_iterations ++
    ") reached without publishing."
  let st := { st with
    node := { st.node with status := "failed", result := some result },
    worker := { st.worker with status := "idle" } }
  (st, result)

/-- Embeds `WorkerExecutor.execute` end to end on the success-path
loop: a `returned` exit hands back the in-loop result; a stall or an
exhausted budget falls through to the failure block (`if not
self.finished:` is true on both). -/
def workerExecute (reg : ToolRegistry Unit) (worker : Worker) (node : WorkNode)
    (bus : MessageBus) (responses : Nat → WResponse) : ExecSt × String :=
  match execLoop reg responses (initialExecSt worker node bus) 0 worker.max_iterations with
  | (st, .returned r) => (st, r)
  | (st, .stalled) => workerFailMaxIterations st
  | (st, .exhausted) => workerFailMaxIterations st

end Agiraph

namespace Agiraph

/-- The fields of the shared `ToolContext`
(`src/agiraph/tools/context.py`) that `impl_publish` reads: the
executing node and worker (the board, pool, buses and queues it also
carries feed other tools). -/
structure ToolContext where
  node : Option WorkNode
  worker : Option Worker
deriving Repr

/-- What one `impl_publish` call produces: the returned string, the
updated node and worker, the content written to the node's
`_status.md`, and the text appended to the worker's `memory.md` (none
when nothing was written/appended). -/
structure PublishOut where
  ret : String
  node : Option WorkNode
  worker : Option Worker
  statusFile : Option String
  memoryAppended : Option String
deriving Repr

/-- Embeds `impl_publish` from `src/agiraph/tools/implementations.py`
(lines 30–66).  The `scratch/` → `published/` file copying is a pure
file-system move no claim mentions and is not modelled.  Note the
memory append happens only when the worker also has a `worker_dir`. -/
def impl_publish (context : ToolContext) (summary : String) : PublishOut :=
  match context.node with
  | none => ⟨"Error: No active node to publish.", context.node, context.worker, none, none⟩
  | some node =>
    match node.data_dir with
    | none => ⟨"Error: No active node to publish.", context.node, context.worker, none, none⟩
    | some _ =>
      let statusFile := some ("COMPLETED\n\n" ++ summary)
      let node' : WorkNode := { node with status := "completed", result := some summary }
      let memoryAppended :=
        match context.worker with
        | some w =>
          match w.worker_dir with
          | some _ => some ("\n## Node: " ++ node.id ++ "\n" ++ summary ++ "\n")
          | none => none
        | none => none
      let worker' :=
        match context.worker with
        | some w => some { w with status := "idle" }
        | none => none
      ⟨"Published. Node '" ++ node.id ++ "' complete.", some node', worker',
        statusFile, memoryAppended⟩

/-- Concrete input for the C6 counterexample: the context carries a
node with a data directory and a worker, but the worker has no
`worker_dir`. -/
def c6NodeOk : WorkNode := { id := "n1", task := "t", data_dir := some "nodes/n1" }

def c6WorkerNoDir : Worker := { id := "w1", name := "carol", worker_dir := none }

/-- C6 counterexample: under exactly the claim's hypotheses (context
carries the node, the node has a data directory, the context carries
the worker) the publish call succeeds, yet nothing is appended to the
worker's memory, because the worker has no worker directory — the
memory append is additionally guarded by `context.worker.worker_dir`. -/
theorem C6_counterexample :
    (impl_publish ⟨some c6NodeOk, some c6WorkerNoDir⟩ "done").ret =
      "Published. Node 'n1' complete." ∧
    (impl_publish ⟨some c6NodeOk, some c6WorkerNoDir⟩ "done").memoryAppended = none := by
  exact ⟨rfl, rfl⟩

/-- C6 (amended): whenever a worker's publish tool call succeeds (the
context carries the node, the node has a data directory, and the
context carries the worker), the node's status becomes completed with
its result set to the given summary, the `_status.md` content records
completion, the worker's status becomes idle, the summary is appended
to the worker's memory whenever the worker has a worker directory (and
nothing is appended when it has none), and the worker executor
terminates its loop for the item: processing a tool call named
`publish` returns its dispatch result immediately, with the finished
flag set, skipping any remaining calls. -/
theorem C6_publish_completes_node_and_idles_worker (node : WorkNode) (worker : Worker)
    (d summary : String) (hdir : node.data_dir = some d) :
    (impl_publish ⟨some node, some worker⟩ summary).ret =
      "Published. Node '" ++ node.id ++ "' complete." ∧
    (impl_publish ⟨some node, some worker⟩ summary).node =
      some { node with status := "completed", result := some summary } ∧
    (impl_publish ⟨some node, some worker⟩ summary).worker =
      some { worker with status := "idle" } ∧
    (impl_publish ⟨some node, some worker⟩ summary).statusFile =
      some ("COMPLETED\n\n" ++ summary) ∧
    (∀ wd, worker.worker_dir = some wd →
      (impl_publish ⟨some node, some worker⟩ summary).memoryAppended =
        some ("\n## Node: " ++ node.id ++ "\n" ++ summary ++ "\n")) ∧
    (worker.worker_dir = none →
      (impl_publish ⟨some node, some worker⟩ summary).memoryAppended = none) ∧
    (∀ (reg : ToolRegistry Unit) (st : ExecSt) (tc : ToolCall) (rest : List ToolCall),
      tc.name = "publish" →
      ∃ st', procWorkerToolCalls reg st (tc :: rest) =
          (st', some (reg.dispatch tc ())) ∧ st'.finished = true) := by
  unfold impl_publish
  dsimp only
  rw [hdir]
  refine ⟨rfl, rfl, rfl, rfl, ?_, ?_, ?_⟩
  · intro wd hwd
    dsimp only
    rw [hwd]
  · intro hwd
    dsimp only
    rw [hwd]
  · intro reg st tc rest htc
    rw [procWorkerToolCalls]
    rw [if_pos (by simp [htc])]
    exact ⟨_, rfl, rfl⟩

/-- Concrete worker with a worker directory for the C6 witness. -/
def c6WorkerDir : Worker := { id := "w2", name := "dave", worker_dir := some "workers/dave" }

theorem C6_witness :
    (impl_publish ⟨some c6NodeOk, some c6WorkerDir⟩ "done").ret =
      "Published. Node 'n1' complete." ∧
    (impl_publish ⟨some c6NodeOk, some c6WorkerDir⟩ "done").worker =
      some { c6WorkerDir with status := "idle" } ∧
    (impl_publish ⟨some c6NodeOk, some c6WorkerDir⟩ "done").memoryAppended =
      some "\n## Node: n1\ndone\n" := by
  have h := C6_publish_completes_node_and_idles_worker c6NodeOk c6WorkerDir
    "nodes/n1" "done" rfl
  refine ⟨h.1, h.2.2.1, ?_⟩
  rw [h.2.2.2.2.1 "workers/dave" rfl]
  rfl

end Agiraph

namespace Agiraph

theorem procWorkerToolCalls_preserves (reg : ToolRegistry Unit) :
    ∀ (calls : List ToolCall) (st : ExecSt),
      (procWorkerToolCalls reg st calls).1.sent = st.sent ∧
      (procWorkerToolCalls reg st calls).1.worker = st.worker ∧
      (procWorkerToolCalls reg st calls).1.node = st.node ∧
      (procWorkerToolCalls reg st calls).1.notesFile = st.notesFile
  | [], st => ⟨rfl, rfl, rfl, rfl⟩
  | tc :: rest, st => by
    rw [procWorkerToolCalls]
    dsimp only
    by_cases h1 : (tc.name == "publish") = true
    · rw [if_pos h1]
      exact ⟨rfl, rfl, rfl, rfl⟩
    · rw [if_neg h1]
      by_cases h2 : containsSub "AGENT_FINISHED" (reg.dispatch tc ()) = true
      · rw [if_pos h2]
        exact ⟨rfl, rfl, rfl, rfl⟩
      · rw [if_neg h2]
        exact procWorkerToolCalls_preserves reg rest _

theorem execLoop_preserves (reg : ToolRegistry Unit) (responses : Nat → WResponse) :
    ∀ (fuel iter : Nat) (st : ExecSt),
      (execLoop reg responses st iter fuel).1.sent = st.sent ∧
      (execLoop reg responses st iter fuel).1.worker = st.worker ∧
      (execLoop reg responses st iter fuel).1.node = st.node ∧
      (execLoop reg responses st iter fuel).1.notesFile = st.notesFile
  | 0, _iter, st => ⟨rfl, rfl, rfl, rfl⟩
  | fuel + 1, iter, st => by
    rw [execLoop]
    by_cases h1 : (responses iter).tool_calls.isEmpty = true
    · rw [if_pos h1]
      by_cases h2 : ((responses iter).text.getD "" == "") = true
      · rw [if_pos h2]
        exact ⟨rfl, rfl, rfl, rfl⟩
      · rw [if_neg h2]
        exact execLoop_preserves reg responses fuel (iter + 1) _
    · rw [if_neg h1]
      split
      · rename_i st' r hp
        have hpres := procWorkerToolCalls_preserves reg (responses iter).tool_calls
          { st.yieldPoint with conversation :=
              st.yieldPoint.conversation ++ [("assistant", (responses iter).text.getD "")] }
        rw [hp] at hpres
        exact hpres
      · rename_i st' hp
        have hpres := procWorkerToolCalls_preserves reg (responses iter).tool_calls
          { st.yieldPoint with conversation :=
              st.yieldPoint.conversation ++ [("assistant", (responses iter).text.getD "")] }
        rw [hp] at hpres
        obtain ⟨hs, hw, hn, hf⟩ := hpres
        obtain ⟨hs2, hw2, hn2, hf2⟩ := execLoop_preserves reg responses fuel (iter + 1) st'
        exact ⟨hs2.trans hs, hw2.trans hw, hn2.trans hn, hf2.trans hf⟩

/-- C7: a harnessed worker execution that exhausts the worker's
max-iteration budget without publishing or receiving a finish signal
leaves the node failed with the max-iterations result text (also
returned by `execute`), leaves the worker idle, writes the
failure-notes artifact (the node having a data directory), and places
exactly one message — the `[WORKER FAILED]` notification from the
worker to the coordinator — on the message bus over the entire
execution.  (The message bus is present throughout in this embedding;
tool implementations are pure, so tool dispatches send nothing.) -/
theorem C7_max_iterations_failure (reg : ToolRegistry Unit) (worker : Worker)
    (node : WorkNode) (bus : MessageBus) (responses : Nat → WResponse)
    (d : String) (hdir : node.data_dir = some d)
    (hex : (execLoop reg responses (initialExecSt worker node bus) 0
        worker.max_iterations).2 = LoopExit.exhausted) :
    (workerExecute reg worker node bus responses).1.node.status = "failed" ∧
    (workerExecute reg worker node bus responses).1.node.result =
      some ("Max iterations (" ++ toString worker.max_iterations ++
        ") reached without publishing.") ∧
    (workerExecute reg worker node bus responses).2 =
      "Max iterations (" ++ toString worker.max_iterations ++
        ") reached without publishing." ∧
    (workerExecute reg worker node bus responses).1.worker.status = "idle" ∧
    (workerExecute reg worker node bus responses).1.notesFile.isSome = true ∧
    (∃ content, (workerExecute reg worker node bus responses).1.sent =
      [{ from_id := worker.name, to_id := "coordinator", content := content }]) := by
  obtain ⟨hs, hw, hn, hf⟩ := execLoop_preserves reg responses worker.max_iterations 0
    (initialExecSt worker node bus)
  unfold workerExecute
  rcases hE : execLoop reg responses (initialExecSt worker node bus) 0
      worker.max_iterations with ⟨st', exit⟩
  rw [hE] at hex hs hw hn hf
  dsimp only at hex hs hw hn hf
  subst hex
  dsimp only
  simp only [initialExecSt] at hs hw hn hf
  unfold workerFailMaxIterations
  dsimp only
  rw [hn, hdir]
  dsimp only
  unfold ExecSt.sendMsg
  dsimp only
  rw [hw, hs]
  exact ⟨rfl, rfl, rfl, rfl, rfl, ⟨_, rfl⟩⟩

/-- Concrete run for the C7 witness: a worker with a one-iteration
budget whose single response calls an unknown tool, so the budget is
exhausted without a publish or finish signal. -/
def c7Registry : ToolRegistry Unit := ⟨[]⟩

def c7Worker : Worker := { id := "w7", name := "bob", max_iterations := 1 }

def c7Node : WorkNode := { id := "n7", task := "t", data_dir := some "nodes/n7" }

def c7Bus : MessageBus := ⟨[]⟩

def c7Responses : Nat → WResponse :=
  fun _ => { text := some "thinking", tool_calls := [{ name := "noop" }] }

theorem C7_witness :
    (workerExecute c7Registry c7Worker c7Node c7Bus c7Responses).1.node.status =
      "failed" ∧
    (workerExecute c7Registry c7Worker c7Node c7Bus c7Responses).1.worker.status =
      "idle" ∧
    (workerExecute c7Registry c7Worker c7Node c7Bus c7Responses).1.notesFile.isSome =
      true ∧
    (∃ content, (workerExecute c7Registry c7Worker c7Node c7Bus c7Responses).1.sent =
      [{ from_id := "bob", to_id := "coordinator", content := content }]) := by
  have h := C7_max_iterations_failure c7Registry c7Worker c7Node c7Bus c7Responses
    "nodes/n7" rfl (by decide)
  exact ⟨h.1, h.2.2.2.1, h.2.2.2.2.1, h.2.2.2.2.2⟩

end Agiraph
